import Mathlib

/-!
Verification of the `go-license` repository (`license.go`).

The Go source is shallowly embedded below.  Pure Go functions become Lean
functions on `List Char` / `String`; the one stateful method
(`(*License).GuessType`, which mutates its receiver and returns an error)
becomes a function returning the post-state together with an optional error;
fallible I/O paths become `Option`/`Except` over an abstract directory
snapshot.  Go's Unicode case folding (`strings.ToLower`, the `(?i)` regexp
flag) is modelled by ASCII case folding, which is the fragment all license
phrases and file patterns live in.
-/

/-- Character class of Go's regexp `\s`, namely `[\t\n\f\r ]`. -/
def isGoSpace (c : Char) : Bool :=
  c == ' ' || c == '\t' || c == '\n' || c == '\r' || c == '\x0c'

/-- The ASCII letters in lower case. -/
def lowercaseLetters : List Char :=
  ['a', 'b', 'c', 'd', 'e', 'f', 'g', 'h', 'i', 'j', 'k', 'l', 'm',
   'n', 'o', 'p', 'q', 'r', 's', 't', 'u', 'v', 'w', 'x', 'y', 'z']

/-- The ASCII lower/upper case letter pairs. -/
def casePairs : List (Char × Char) :=
  [('a', 'A'), ('b', 'B'), ('c', 'C'), ('d', 'D'), ('e', 'E'), ('f', 'F'), ('g', 'G'),
   ('h', 'H'), ('i', 'I'), ('j', 'J'), ('k', 'K'), ('l', 'L'), ('m', 'M'), ('n', 'N'),
   ('o', 'O'), ('p', 'P'), ('q', 'Q'), ('r', 'R'), ('s', 'S'), ('t', 'T'), ('u', 'U'),
   ('v', 'V'), ('w', 'W'), ('x', 'X'), ('y', 'Y'), ('z', 'Z')]

/-- ASCII case folding of one character; models Go's `strings.ToLower`
(all texts compared by the classifier are ASCII). -/
def lowerChar (c : Char) : Char :=
  ((casePairs.find? (fun q => q.2 == c)).map (fun q => q.1)).getD c

/-- ASCII upper-casing of one character (used to state the case-variation
property of the spec; the source itself only lowers). -/
def upperChar (c : Char) : Char :=
  ((casePairs.find? (fun q => q.1 == c)).map (fun q => q.2)).getD c

/-- Model of `newlineRegexp.ReplaceAllLiteralString(comp, " ")` for the
pattern `(\r\n|\n)`: scanning left to right, each `\r\n` pair and each
remaining lone `\n` is replaced by a single space (a lone `\r` is kept). -/
def replaceNewlines : List Char → List Char
  | [] => []
  | c :: rest =>
    if c = '\n' then ' ' :: replaceNewlines rest
    else if c = '\r' then
      match rest with
      | [] => [c]
      | c2 :: rest2 =>
        if c2 = '\n' then ' ' :: replaceNewlines rest2
        else c :: replaceNewlines (c2 :: rest2)
    else c :: replaceNewlines rest

/-- Worker for the whitespace-run collapsing pass.  The flag records whether
the scanner is inside a whitespace run of length at least two whose single
replacement space has already been emitted (such runs are skipped to their
end). -/
def collapseAux : List Char → Bool → List Char
  | [], _ => []
  | c :: rest, true =>
    if isGoSpace c then collapseAux rest true
    else c :: collapseAux rest false
  | c :: rest, false =>
    if isGoSpace c then
      match rest with
      | [] => [c]
      | c2 :: _ =>
        if isGoSpace c2 then ' ' :: collapseAux rest true
        else c :: collapseAux rest false
    else c :: collapseAux rest false

/-- Model of `spaceRegexp.ReplaceAllLiteralString(comp, " ")` for the greedy
pattern `\s{2,}`: every maximal run of two or more whitespace characters is
replaced by one space; single whitespace characters are kept verbatim. -/
def collapseSpaces (l : List Char) : List Char :=
  collapseAux l false

/-- The normalization pipeline of `GuessType` (lines 137-149 of the source):
lower-case, replace line endings by spaces, collapse whitespace runs. -/
def normalizeChars (l : List Char) : List Char :=
  collapseSpaces (replaceNewlines (l.map lowerChar))

/-- Substring search on character lists: does `m` occur contiguously inside
`text`?  This is the semantics of Go's `strings.Contains`. -/
def scanList (text m : List Char) : Bool :=
  if m.isPrefixOf text then true
  else
    match text with
    | [] => false
    | _ :: rest => scanList rest m

/-- Model of the helper `scan(text, match string) bool`, i.e.
`strings.Contains(text, match)`. -/
def scan (text : List Char) (m : String) : Bool :=
  scanList text m.data

/- License identifier constants of the source. -/

def LicenseMIT : String := "MIT"
def LicenseISC : String := "ISC"
def LicenseBSD3Clause : String := "BSD-3-Clause"
def LicenseBSD2Clause : String := "BSD-2-Clause"
def LicenseApache20 : String := "Apache-2.0"
def LicenseMPL20 : String := "MPL-2.0"
def LicenseGPL20 : String := "GPL-2.0"
def LicenseGPL30 : String := "GPL-3.0"
def LicenseLGPL21 : String := "LGPL-2.1"
def LicenseLGPL30 : String := "LGPL-3.0"
def LicenseAGPL30 : String := "AGPL-3.0"
def LicenseCDDL10 : String := "CDDL-1.0"
def LicenseEPL10 : String := "EPL-1.0"
def LicenseZlib : String := "zlib"
def LicenseUnlicense : String := "Unlicense"

/-- The slice `KnownLicenses` of standardized license abbreviations. -/
def KnownLicenses : List String :=
  [LicenseMIT, LicenseISC, LicenseBSD3Clause, LicenseBSD2Clause,
   LicenseApache20, LicenseMPL20, LicenseGPL20, LicenseGPL30,
   LicenseLGPL21, LicenseLGPL30, LicenseAGPL30, LicenseCDDL10,
   LicenseEPL10, LicenseZlib, LicenseUnlicense]

/- The discriminating phrases, exactly as concatenated in the source. -/

def mitPhrase : String :=
  "permission is hereby granted, free of charge, to any person obtaining a copy of this software"
def iscPhrase : String :=
  "permission to use, copy, modify, and/or distribute this software for any"
def apachePhraseA : String := "apache license version 2.0, january 2004"
def apachePhraseB : String := "http://www.apache.org/licenses/license-2.0"
def gpl2Phrase : String := "gnu general public license version 2, june 1991"
def gpl3Phrase : String := "gnu general public license version 3, 29 june 2007"
def lgpl21Phrase : String := "gnu lesser general public license version 2.1, february 1999"
def lgpl30Phrase : String := "gnu lesser general public license version 3, 29 june 2007"
def agpl30Phrase : String := "gnu affero general public license version 3, 19 november 2007"
def mplPhraseA : String := "mozilla public license"
def mplPhraseB : String := "version 2.0"
def bsdPreamble : String := "redistribution and use in source and binary forms"
def bsdNeither : String := "neither the name of"
def cddlPhrase : String := "common development and distribution license (cddl) version 1.0"
def eplPhrase : String := "eclipse public license - v 1.0"
def zlibPhrase : String := "permission is granted to anyone to use this software for any purpose"
def unlicensePhrase : String :=
  "this is free and unencumbered software released into the public domain"

/-- The switch statement of `GuessType` (lines 151-209): sequential tests on
the normalized text `comp`, first hit wins, `none` for the default branch. -/
def classifyComp (comp : List Char) : Option String :=
  if scan comp mitPhrase then some LicenseMIT
  else if scan comp iscPhrase then some LicenseISC
  else if scan comp apachePhraseA || scan comp apachePhraseB then some LicenseApache20
  else if scan comp gpl2Phrase then some LicenseGPL20
  else if scan comp gpl3Phrase then some LicenseGPL30
  else if scan comp lgpl21Phrase then some LicenseLGPL21
  else if scan comp lgpl30Phrase then some LicenseLGPL30
  else if scan comp agpl30Phrase then some LicenseAGPL30
  else if scan comp mplPhraseA && scan comp mplPhraseB then some LicenseMPL20
  else if scan comp bsdPreamble then
    if scan comp bsdNeither then some LicenseBSD3Clause else some LicenseBSD2Clause
  else if scan comp cddlPhrase then some LicenseCDDL10
  else if scan comp eplPhrase then some LicenseEPL10
  else if scan comp zlibPhrase then some LicenseZlib
  else if scan comp unlicensePhrase then some LicenseUnlicense
  else none

/-- Classification of a raw character sequence: normalize once, then run the
rule switch.  This is `GuessType` stripped of the entity bookkeeping. -/
def classifyChars (t : List Char) : Option String :=
  classifyComp (normalizeChars t)

/-- The `License` struct: `type` is Go's `Type`, `text` is `Text` (raw,
never normalized in place), `file` is `File`. -/
structure License where
  type : String
  text : String
  file : String
deriving DecidableEq, Repr

/-- Error kinds of the package: `ErrNoLicenseFile`, `ErrUnrecognizedLicense`,
`ErrMultipleLicenses`, plus `ioError` standing for any error bubbled up from
`ioutil` (those are distinct error values in Go). -/
inductive GoErr where
  | noLicenseFile
  | unrecognizedLicense
  | multipleLicenses
  | ioError
deriving DecidableEq, Repr

/-- The method `(*License).GuessType() error`.  It is modelled as a state
transformer: the result is the receiver after the call together with the
returned error (`none` on success).  On success the matched identifier is
written to `type`; the default branch returns `ErrUnrecognizedLicense`
without touching the receiver. -/
def GuessType (l : License) : License × Option GoErr :=
  match classifyComp (normalizeChars l.text.data) with
  | some t => ({ l with type := t }, none)
  | none => (l, some GoErr.unrecognizedLicense)

/-- The method `(*License).Recognized() bool`: linear scan of
`KnownLicenses` for the entity's `type`. -/
def Recognized (l : License) : Bool :=
  KnownLicenses.any (fun k => k == l.type)

/-- The slice `DefaultLicenseFiles` of license file name patterns. -/
def DefaultLicenseFiles : List String :=
  ["license*", "licence*", "copying*", "unlicense"]

/-- Drops one trailing wildcard from a pattern, leaving its literal prefix. -/
def stripStar (p : List Char) : List Char :=
  match p.getLast? with
  | some c => if c = '*' then p.dropLast else p
  | none => p

/-- Model of matching one compiled pattern against a file name.
`complileLicensePatters` compiles a pattern `p` to the regexp
`(?i)^` ++ (`p` with `*` replaced by `.*`) and `guessFromDir` tests it with
`MatchString`; for the pattern shape in use (a literal, optionally ending in
`*`) that holds exactly when the literal prefix of `p` is a case-insensitive
prefix of the file name. -/
def patternMatch (p file : String) : Bool :=
  ((stripStar p.data).map lowerChar).isPrefixOf (file.data.map lowerChar)

/-- The nested loops of `matchLicenseFile`: for each file (in the supplied
order), append the file once per pattern it matches. -/
def matchLicenseFile (patterns files : List String) : List String :=
  files.foldr
    (fun file acc =>
      ((patterns.filter (fun p => patternMatch p file)).map (fun _ => file)) ++ acc)
    []

/-- The function `getLicenseFile`: the matches, or `ErrNoLicenseFile` when
there are none. -/
def getLicenseFile (patterns files : List String) : Except GoErr (List String) :=
  match matchLicenseFile patterns files with
  | [] => Except.error GoErr.noLicenseFile
  | ms => Except.ok ms

/-- Abstract snapshot of one directory, standing for the file system the Go
code touches: `listing` is the result of `readDirectory` (`none` when
`ioutil.ReadDir` fails), `read` is `ioutil.ReadFile` on a name in the
directory (`none` when the read fails). -/
structure Directory where
  listing : Option (List String)
  read : String → Option String

/-- The function `NewFromFile`, scoped to a directory snapshot: read the
file, build the entity with `Text` and `File` set, classify it; read errors
and `ErrUnrecognizedLicense` abort. -/
def NewFromFile (d : Directory) (name : String) : Except GoErr License :=
  match d.read name with
  | none => Except.error GoErr.ioError
  | some txt =>
    match GuessType { type := "", text := txt, file := name } with
    | (l, none) => Except.ok l
    | (_, some e) => Except.error e

/-- The body of the accumulation loop of `guessFromDir`: a candidate file
name contributes an entity exactly when `NewFromFile` succeeds and the
(re-run) `GuessType` call returns no error; all failures are skipped. -/
def classifyCandidate (d : Directory) (name : String) : Option License :=
  match NewFromFile d name with
  | Except.error _ => none
  | Except.ok l =>
    match GuessType l with
    | (l2, none) => some l2
    | (_, some _) => none

/-- The function `guessFromDir`: list the directory (propagating the read
error), locate candidate files, best-effort classify each, and fail with
`ErrUnrecognizedLicense` when nothing classified. -/
def guessFromDir (d : Directory) : Except GoErr (List License) :=
  match d.listing with
  | none => Except.error GoErr.ioError
  | some files =>
    match getLicenseFile DefaultLicenseFiles files with
    | Except.error e => Except.error e
    | Except.ok matchs =>
      if (matchs.filterMap (classifyCandidate d)).isEmpty then
        Except.error GoErr.unrecognizedLicense
      else Except.ok (matchs.filterMap (classifyCandidate d))

/-- The function `NewFromDir`: first entity of a successful scan.  The Go
code indexes `ls[0]`; `guessFromDir` never returns an empty list on success
(proved below), so the default of `headD` is never consulted. -/
def NewFromDir (d : Directory) : Except GoErr License :=
  match guessFromDir d with
  | Except.error e => Except.error e
  | Except.ok ls => Except.ok (ls.headD { type := "", text := "", file := "" })

/-- The function `NewLicencesFromDir` is `guessFromDir` verbatim. -/
def NewLicencesFromDir (d : Directory) : Except GoErr (List License) :=
  guessFromDir d

/-- Spec-side rendering of the classification ruleset: an ordered table of
(conjunction of literal substring tests, identifier) rules.  The Apache rule
of the source (a disjunction of two phrases) appears as two adjacent rows,
and the nested BSD disambiguation as the BSD-3 row (preamble and
non-endorsement clause) directly before the BSD-2 row (preamble alone), so
every row is a pure conjunction and first-match semantics coincides with
the source's switch. -/
def ruleTable : List (List String × String) :=
  [([mitPhrase], LicenseMIT),
   ([iscPhrase], LicenseISC),
   ([apachePhraseA], LicenseApache20),
   ([apachePhraseB], LicenseApache20),
   ([gpl2Phrase], LicenseGPL20),
   ([gpl3Phrase], LicenseGPL30),
   ([lgpl21Phrase], LicenseLGPL21),
   ([lgpl30Phrase], LicenseLGPL30),
   ([agpl30Phrase], LicenseAGPL30),
   ([mplPhraseA, mplPhraseB], LicenseMPL20),
   ([bsdPreamble, bsdNeither], LicenseBSD3Clause),
   ([bsdPreamble], LicenseBSD2Clause),
   ([cddlPhrase], LicenseCDDL10),
   ([eplPhrase], LicenseEPL10),
   ([zlibPhrase], LicenseZlib),
   ([unlicensePhrase], LicenseUnlicense)]

/-- A rule fires when every one of its phrases occurs in the normalized
text. -/
def ruleMatches (comp : List Char) (r : List String × String) : Bool :=
  r.1.all (fun ph => scan comp ph)

/-- First-match evaluation of the rule table on a normalized text. -/
def firstMatch (comp : List Char) : Option String :=
  (ruleTable.find? (ruleMatches comp)).map (fun r => r.2)

deriving instance DecidableEq for Except

/-- First-match evaluation of an arbitrary rule list (helper for relating
the switch to the table). -/
def firstMatchL (rules : List (List String × String)) (comp : List Char) : Option String :=
  (rules.find? (ruleMatches comp)).map (fun r => r.2)

lemma firstMatchL_cons (r : List String × String) (rs : List (List String × String))
    (comp : List Char) :
    firstMatchL (r :: rs) comp =
      if ruleMatches comp r = true then some r.2 else firstMatchL rs comp := by
  unfold firstMatchL
  cases h : ruleMatches comp r
  · rw [List.find?_cons_of_neg _ (by simp [h])]
    simp [h]
  · rw [List.find?_cons_of_pos _ h]
    simp [h]

set_option maxHeartbeats 1000000 in
lemma classifyComp_eq_firstMatch (comp : List Char) : classifyComp comp = firstMatch comp := by
  show classifyComp comp = firstMatchL ruleTable comp
  unfold ruleTable
  rw [firstMatchL_cons, firstMatchL_cons, firstMatchL_cons, firstMatchL_cons,
      firstMatchL_cons, firstMatchL_cons, firstMatchL_cons, firstMatchL_cons,
      firstMatchL_cons, firstMatchL_cons, firstMatchL_cons, firstMatchL_cons,
      firstMatchL_cons, firstMatchL_cons, firstMatchL_cons, firstMatchL_cons]
  simp only [ruleMatches, List.all_cons, List.all_nil, Bool.and_true]
  unfold classifyComp
  cases h1 : scan comp mitPhrase <;>
    simp only [h1, Bool.false_eq_true, if_true, if_false, eq_self_iff_true]
  cases h2 : scan comp iscPhrase <;>
    simp only [h2, Bool.false_eq_true, if_true, if_false, eq_self_iff_true]
  cases ha : scan comp apachePhraseA <;> cases hb : scan comp apachePhraseB <;>
    simp only [ha, hb, Bool.false_eq_true, Bool.false_or, Bool.true_or, Bool.or_false,
      Bool.or_true, if_true, if_false, eq_self_iff_true]
  cases h4 : scan comp gpl2Phrase <;>
    simp only [h4, Bool.false_eq_true, if_true, if_false, eq_self_iff_true]
  cases h5 : scan comp gpl3Phrase <;>
    simp only [h5, Bool.false_eq_true, if_true, if_false, eq_self_iff_true]
  cases h6 : scan comp lgpl21Phrase <;>
    simp only [h6, Bool.false_eq_true, if_true, if_false, eq_self_iff_true]
  cases h7 : scan comp lgpl30Phrase <;>
    simp only [h7, Bool.false_eq_true, if_true, if_false, eq_self_iff_true]
  cases h8 : scan comp agpl30Phrase <;>
    simp only [h8, Bool.false_eq_true, if_true, if_false, eq_self_iff_true]
  cases h9 : scan comp mplPhraseA && scan comp mplPhraseB <;>
    simp only [h9, Bool.false_eq_true, if_true, if_false, eq_self_iff_true]
  cases hpre : scan comp bsdPreamble
  case true =>
    cases hne : scan comp bsdNeither <;>
      simp only [hpre, hne, Bool.true_and, Bool.and_false, Bool.and_true, Bool.false_eq_true,
        if_true, if_false, eq_self_iff_true]
  case false =>
    simp only [hpre, Bool.false_and, Bool.false_eq_true, if_false]
    rfl

/-- Claim C1: classification normalizes the text once, then evaluates the
fixed rule table strictly in the spec's order (the Apache disjunction split
into two adjacent conjunctive rows and the BSD sub-disambiguation into the
BSD-3 row directly before the BSD-2 row), assigns the identifier of the
first rule whose conjunction of literal substring tests holds on the
normalized text, and fails with `ErrUnrecognizedLicense` when no rule
matches, leaving the entity unchanged. -/
theorem guessType_first_match_of_rule_table (l : License) :
    GuessType l =
      (match firstMatch (normalizeChars l.text.data) with
       | some id => ({ l with type := id }, none)
       | none => (l, some GoErr.unrecognizedLicense)) := by
  unfold GuessType
  rw [classifyComp_eq_firstMatch]

/-- Claim C2 (theorem): on a text whose normalized form contains the BSD
preamble and matches none of the earlier rules, classification returns
BSD-3-Clause exactly when the normalized text also contains the
non-endorsement clause, and BSD-2-Clause otherwise. -/
theorem classify_bsd_disambiguation (t : List Char)
    (hpre : scan (normalizeChars t) bsdPreamble = true)
    (h1 : scan (normalizeChars t) mitPhrase = false)
    (h2 : scan (normalizeChars t) iscPhrase = false)
    (h3a : scan (normalizeChars t) apachePhraseA = false)
    (h3b : scan (normalizeChars t) apachePhraseB = false)
    (h4 : scan (normalizeChars t) gpl2Phrase = false)
    (h5 : scan (normalizeChars t) gpl3Phrase = false)
    (h6 : scan (normalizeChars t) lgpl21Phrase = false)
    (h7 : scan (normalizeChars t) lgpl30Phrase = false)
    (h8 : scan (normalizeChars t) agpl30Phrase = false)
    (h9 : (scan (normalizeChars t) mplPhraseA && scan (normalizeChars t) mplPhraseB) = false) :
    classifyChars t =
      some (if scan (normalizeChars t) bsdNeither then LicenseBSD3Clause
            else LicenseBSD2Clause) := by
  unfold classifyChars classifyComp
  simp only [h1, h2, h3a, h3b, h4, h5, h6, h7, h8, h9, hpre, Bool.false_or,
    Bool.false_eq_true, if_true, if_false, eq_self_iff_true]
  cases hne : scan (normalizeChars t) bsdNeither <;> simp [hne]

/-- Concrete texts exercising the BSD-2 and BSD-3 branches. -/
def bsdText2 : List Char := bsdPreamble.data

def bsdText3 : List Char :=
  (bsdPreamble ++ " ... neither the name of the organization ...").data

/-- Witness for claim C2: the preamble alone is BSD-2-Clause, the preamble
with the non-endorsement clause is BSD-3-Clause. -/
theorem classify_bsd_disambiguation_witness :
    classifyChars bsdText2 = some LicenseBSD2Clause ∧
    classifyChars bsdText3 = some LicenseBSD3Clause := by
  constructor
  · have h := classify_bsd_disambiguation bsdText2 (by decide) (by decide) (by decide)
      (by decide) (by decide) (by decide) (by decide) (by decide) (by decide) (by decide)
      (by decide)
    rw [h]
    decide
  · have h := classify_bsd_disambiguation bsdText3 (by decide) (by decide) (by decide)
      (by decide) (by decide) (by decide) (by decide) (by decide) (by decide) (by decide)
      (by decide)
    rw [h]
    decide

lemma classifyComp_mem_known (comp : List Char) (id : String)
    (h : classifyComp comp = some id) : id ∈ KnownLicenses := by
  rw [classifyComp_eq_firstMatch] at h
  unfold firstMatch at h
  rcases Option.map_eq_some'.mp h with ⟨r, hr, hid⟩
  have hmem := List.mem_of_find?_eq_some hr
  subst hid
  fin_cases hmem <;> decide

/-- Claim C8: every identifier assigned by successful classification is in
the known-identifier registry; `Recognized` is exactly registry membership
of the entity's identifier; and it is false for the empty identifier. -/
theorem classified_identifiers_recognized :
    (∀ l l2 : License, GuessType l = (l2, none) →
        l2.type ∈ KnownLicenses ∧ Recognized l2 = true) ∧
    (∀ l : License, Recognized l = true ↔ l.type ∈ KnownLicenses) ∧
    (∀ t f : String, Recognized { type := "", text := t, file := f } = false) := by
  have hiff : ∀ l : License, Recognized l = true ↔ l.type ∈ KnownLicenses := by
    intro l
    simp [Recognized, List.any_eq_true, beq_iff_eq]
  refine ⟨?_, hiff, ?_⟩
  · intro l l2 h
    unfold GuessType at h
    cases hc : classifyComp (normalizeChars l.text.data) <;> rw [hc] at h
    · exact absurd h (by simp)
    · have h2 : l2 = { l with type := _ } := (Prod.mk.injEq _ _ _ _ ▸ h).1.symm
      have hmem := classifyComp_mem_known _ _ hc
      subst h2
      exact ⟨hmem, (hiff _).mpr hmem⟩
  · intro t f
    rfl

/-- Witness for claim C8: classifying the MIT phrase succeeds and the
resulting identifier is registered and recognized. -/
theorem classified_identifiers_recognized_witness :
    ({ type := "MIT", text := mitPhrase, file := "" } : License).type ∈ KnownLicenses ∧
    Recognized { type := "MIT", text := mitPhrase, file := "" } = true := by
  exact classified_identifiers_recognized.1
    { type := "", text := mitPhrase, file := "" }
    { type := "MIT", text := mitPhrase, file := "" } (by decide)

/-- Claim C10: a failing `GuessType` call returns `ErrUnrecognizedLicense`
and leaves every field of the receiver unchanged. -/
theorem guessType_failure_atomic (l l2 : License) (e : GoErr)
    (h : GuessType l = (l2, some e)) :
    l2 = l ∧ e = GoErr.unrecognizedLicense := by
  unfold GuessType at h
  cases hc : classifyComp (normalizeChars l.text.data) <;> rw [hc] at h
  · exact ⟨((Prod.mk.injEq _ _ _ _ ▸ h).1).symm,
      (Option.some.injEq _ _ ▸ (Prod.mk.injEq _ _ _ _ ▸ h).2).symm⟩
  · exact absurd (Prod.mk.injEq _ _ _ _ ▸ h).2 (by simp)

/-- Witness for claim C10: re-classifying unrecognizable text fails and
keeps the previously assigned identifier and the other fields intact. -/
theorem guessType_failure_atomic_witness :
    ({ type := "MIT", text := "hello world", file := "f" } : License) =
      { type := "MIT", text := "hello world", file := "f" } ∧
    GoErr.unrecognizedLicense = GoErr.unrecognizedLicense := by
  exact guessType_failure_atomic
    { type := "MIT", text := "hello world", file := "f" }
    { type := "MIT", text := "hello world", file := "f" }
    GoErr.unrecognizedLicense (by decide)

lemma matchLicenseFile_nil (patterns : List String) : matchLicenseFile patterns [] = [] := rfl

lemma matchLicenseFile_cons (patterns : List String) (g : String) (fs : List String) :
    matchLicenseFile patterns (g :: fs) =
      ((patterns.filter (fun p => patternMatch p g)).map (fun _ => g))
        ++ matchLicenseFile patterns fs := rfl

lemma mem_matchLicenseFile (patterns files : List String) (f : String) :
    f ∈ matchLicenseFile patterns files ↔
      f ∈ files ∧ ∃ p ∈ patterns, patternMatch p f = true := by
  induction files with
  | nil => simp [matchLicenseFile_nil]
  | cons g fs ih =>
    rw [matchLicenseFile_cons]
    simp only [List.mem_append, List.mem_map, List.mem_filter, List.mem_cons, ih]
    constructor
    · rintro (⟨p, ⟨hp, hm⟩, rfl⟩ | ⟨hf, p, hp, hm⟩)
      · exact ⟨Or.inl rfl, p, hp, hm⟩
      · exact ⟨Or.inr hf, p, hp, hm⟩
    · rintro ⟨rfl | hf, p, hp, hm⟩
      · exact Or.inl ⟨p, ⟨hp, hm⟩, rfl⟩
      · exact Or.inr ⟨hf, p, hp, hm⟩

/-- Claim C5: the file locator returns, in the order the file names were
supplied, exactly the names matching at least one pattern (case-insensitive,
anchored at the start), one occurrence per matching pattern, and
`getLicenseFile` fails with `ErrNoLicenseFile` exactly when that list is
empty (and returns it unchanged otherwise). -/
theorem locate_license_files (patterns files : List String) :
    (matchLicenseFile patterns files =
      files.foldr
        (fun f acc =>
          List.replicate ((patterns.filter (fun p => patternMatch p f)).length) f ++ acc) []) ∧
    (∀ f, f ∈ matchLicenseFile patterns files ↔
      f ∈ files ∧ ∃ p ∈ patterns, patternMatch p f = true) ∧
    (getLicenseFile patterns files = Except.error GoErr.noLicenseFile ↔
      matchLicenseFile patterns files = []) ∧
    (matchLicenseFile patterns files ≠ [] →
      getLicenseFile patterns files = Except.ok (matchLicenseFile patterns files)) := by
  refine ⟨?_, mem_matchLicenseFile patterns files, ?_, ?_⟩
  · induction files with
    | nil => rfl
    | cons g fs ih => rw [matchLicenseFile_cons, List.foldr_cons, ih, List.map_const']
  · unfold getLicenseFile
    cases hm : matchLicenseFile patterns files <;> simp
  · intro hne
    unfold getLicenseFile
    cases hm : matchLicenseFile patterns files
    · exact absurd hm hne
    · rfl

/-- Witness for claim C5: with the default patterns, a listing containing
one license file and one unrelated file locates exactly the license file. -/
theorem locate_license_files_witness :
    getLicenseFile DefaultLicenseFiles ["LICENSE", "README.md"] = Except.ok ["LICENSE"] := by
  have h := (locate_license_files DefaultLicenseFiles ["LICENSE", "README.md"]).2.2.2 (by decide)
  rw [h]
  decide

lemma patternMatch_excl (p q f : String)
    (hpq : ¬ ((stripStar p.data).map lowerChar <+: (stripStar q.data).map lowerChar))
    (hqp : ¬ ((stripStar q.data).map lowerChar <+: (stripStar p.data).map lowerChar))
    (hp : patternMatch p f = true) (hq : patternMatch q f = true) : False := by
  unfold patternMatch at hp hq
  rcases List.prefix_or_prefix_of_prefix ( List.isPrefixOf_iff_prefix.mp hp)
      ( List.isPrefixOf_iff_prefix.mp hq) with h | h
  · exact hpq h
  · exact hqp h

lemma default_patterns_at_most_one (f : String) :
    (DefaultLicenseFiles.filter (fun p => patternMatch p f)).length ≤ 1 := by
  by_cases b1 : patternMatch "license*" f = true
  · have nb2 : patternMatch "licence*" f = false :=
      Bool.eq_false_iff.mpr (fun h => patternMatch_excl _ _ f (by decide) (by decide) b1 h)
    have nb3 : patternMatch "copying*" f = false :=
      Bool.eq_false_iff.mpr (fun h => patternMatch_excl _ _ f (by decide) (by decide) b1 h)
    have nb4 : patternMatch "unlicense" f = false :=
      Bool.eq_false_iff.mpr (fun h => patternMatch_excl _ _ f (by decide) (by decide) b1 h)
    simp [DefaultLicenseFiles, b1, nb2, nb3, nb4]
  · by_cases b2 : patternMatch "licence*" f = true
    · have nb3 : patternMatch "copying*" f = false :=
        Bool.eq_false_iff.mpr (fun h => patternMatch_excl _ _ f (by decide) (by decide) b2 h)
      have nb4 : patternMatch "unlicense" f = false :=
        Bool.eq_false_iff.mpr (fun h => patternMatch_excl _ _ f (by decide) (by decide) b2 h)
      simp [DefaultLicenseFiles, b1, b2, nb3, nb4]
    · by_cases b3 : patternMatch "copying*" f = true
      · have nb4 : patternMatch "unlicense" f = false :=
          Bool.eq_false_iff.mpr (fun h => patternMatch_excl _ _ f (by decide) (by decide) b3 h)
        simp [DefaultLicenseFiles, b1, b2, b3, nb4]
      · by_cases b4 : patternMatch "unlicense" f = true
        · simp [DefaultLicenseFiles, b1, b2, b3, b4]
        · simp [DefaultLicenseFiles, b1, b2, b3, b4]

lemma matchLicenseFile_default_sublist (files : List String) :
    (matchLicenseFile DefaultLicenseFiles files).Sublist files := by
  induction files with
  | nil => exact List.Sublist.refl []
  | cons g fs ih =>
    rw [matchLicenseFile_cons]
    have h1 := default_patterns_at_most_one g
    cases hf : DefaultLicenseFiles.filter (fun p => patternMatch p g) with
    | nil => exact List.Sublist.cons g ih
    | cons q qs =>
      rw [hf] at h1
      cases qs with
      | cons q2 qs2 => simp at h1
      | nil => exact List.Sublist.cons₂ g ih

/-- Claim C4: once the listing is read and candidates are located, every
candidate whose read or classification fails is skipped (the scan never
aborts on such a file); if nothing classified the scan fails with
`ErrUnrecognizedLicense`, and otherwise it returns exactly the successfully
classified entities; the candidate list follows directory-listing order. -/
theorem guessFromDir_best_effort (d : Directory) (files matchs : List String)
    (hl : d.listing = some files)
    (hm : getLicenseFile DefaultLicenseFiles files = Except.ok matchs) :
    (guessFromDir d =
      (if (matchs.filterMap (classifyCandidate d)).isEmpty
       then Except.error GoErr.unrecognizedLicense
       else Except.ok (matchs.filterMap (classifyCandidate d)))) ∧
    matchs.Sublist files := by
  constructor
  · unfold guessFromDir
    rw [hl]
    show (match getLicenseFile DefaultLicenseFiles files with
      | Except.error e => Except.error e
      | Except.ok matchs =>
        if (matchs.filterMap (classifyCandidate d)).isEmpty then
          Except.error GoErr.unrecognizedLicense
        else Except.ok (matchs.filterMap (classifyCandidate d))) = _
    rw [hm]
  · have he : matchs = matchLicenseFile DefaultLicenseFiles files := by
      unfold getLicenseFile at hm
      cases hmf : matchLicenseFile DefaultLicenseFiles files <;> rw [hmf] at hm
      · exact absurd hm (by simp)
      · exact (Except.ok.injEq _ _ ▸ hm).symm
    rw [he]
    exact matchLicenseFile_default_sublist files

/-- Witness for claim C4: a directory with a readable MIT license file, an
unreadable candidate and an unrelated file yields exactly one entity, in
listing order, and the failing candidate is skipped. -/
theorem guessFromDir_best_effort_witness :
    guessFromDir
        { listing := some ["COPYING", "LICENSE", "README.md"],
          read := fun n => if n = "LICENSE" then some mitPhrase else none } =
      Except.ok [{ type := "MIT", text := mitPhrase, file := "LICENSE" }] ∧
    ["COPYING", "LICENSE"].Sublist ["COPYING", "LICENSE", "README.md"] := by
  have h := guessFromDir_best_effort
    { listing := some ["COPYING", "LICENSE", "README.md"],
      read := fun n => if n = "LICENSE" then some mitPhrase else none }
    ["COPYING", "LICENSE", "README.md"] ["COPYING", "LICENSE"] rfl (by decide)
  constructor
  · rw [h.1]
    decide
  · exact h.2

/-- Claim C3 (amended theorem): the scan fails with `ErrNoLicenseFile` when
no file name matches a default pattern; when the directory listing cannot be
read it instead propagates the underlying I/O error verbatim. -/
theorem guessFromDir_error_cases (d : Directory) (files : List String) :
    (d.listing = none → guessFromDir d = Except.error GoErr.ioError) ∧
    (d.listing = some files → matchLicenseFile DefaultLicenseFiles files = [] →
      guessFromDir d = Except.error GoErr.noLicenseFile) := by
  constructor
  · intro h
    unfold guessFromDir
    rw [h]
  · intro hl hm
    unfold guessFromDir
    rw [hl]
    show (match getLicenseFile DefaultLicenseFiles files with
      | Except.error e => Except.error e
      | Except.ok matchs =>
        if (matchs.filterMap (classifyCandidate d)).isEmpty then
          Except.error GoErr.unrecognizedLicense
        else Except.ok (matchs.filterMap (classifyCandidate d))) = _
    unfold getLicenseFile
    rw [hm]

/-- Counterexample for claim C3: on a directory whose listing cannot be
read, the scan fails with the propagated I/O error, which is not the
`ErrNoLicenseFile` error the claim asserts. -/
theorem guessFromDir_unreadable_counterexample :
    guessFromDir { listing := none, read := fun _ => none } = Except.error GoErr.ioError ∧
    (Except.error GoErr.ioError : Except GoErr (List License)) ≠
      Except.error GoErr.noLicenseFile := by
  exact ⟨rfl, by decide⟩

/-- Witness for claim C3 (amended): both error cases realized on concrete
directories. -/
theorem guessFromDir_error_cases_witness :
    guessFromDir { listing := none, read := fun _ => none } = Except.error GoErr.ioError ∧
    guessFromDir { listing := some ["README.md"], read := fun _ => none } =
      Except.error GoErr.noLicenseFile := by
  constructor
  · exact (guessFromDir_error_cases { listing := none, read := fun _ => none } []).1 rfl
  · exact (guessFromDir_error_cases
      { listing := some ["README.md"], read := fun _ => none } ["README.md"]).2 rfl (by decide)

/-- Claim C9: whenever the multi-result scan succeeds its result is
non-empty and `NewFromDir` returns exactly its first entity; `NewFromDir`
fails with an error exactly when the scan fails with that error. -/
theorem newFromDir_first_of_scan (d : Directory) :
    (∀ l0 ls, guessFromDir d = Except.ok (l0 :: ls) → NewFromDir d = Except.ok l0) ∧
    (∀ ls, guessFromDir d = Except.ok ls → ls ≠ []) ∧
    (∀ e, guessFromDir d = Except.error e ↔ NewFromDir d = Except.error e) := by
  refine ⟨?_, ?_, ?_⟩
  · intro l0 ls h
    unfold NewFromDir
    rw [h]
    rfl
  · intro ls h
    unfold guessFromDir at h
    split at h
    · exact absurd h (by simp)
    · split at h
      · exact absurd h (by simp)
      · split at h
        · exact absurd h (by simp)
        · rename_i hne
          have h2 := (Except.ok.injEq _ _ ▸ h)
          subst h2
          simpa [List.isEmpty_iff] using hne
  · intro e
    constructor
    · intro h
      unfold NewFromDir
      rw [h]
    · intro h
      unfold NewFromDir at h
      split at h
      · rename_i e2 hg
        injection h with h2
        rw [h2] at hg
        exact hg
      · exact absurd h (by simp)

/-- Witness for claim C9: on a one-license directory the single-result
variant returns the head of the multi-result scan, and on an unreadable
directory both fail with the same error. -/
theorem newFromDir_first_of_scan_witness :
    NewFromDir
        { listing := some ["LICENSE"],
          read := fun n => if n = "LICENSE" then some mitPhrase else none } =
      Except.ok { type := "MIT", text := mitPhrase, file := "LICENSE" } ∧
    NewFromDir { listing := none, read := fun _ => none } = Except.error GoErr.ioError := by
  constructor
  · exact (newFromDir_first_of_scan
      { listing := some ["LICENSE"],
        read := fun n => if n = "LICENSE" then some mitPhrase else none }).1
      { type := "MIT", text := mitPhrase, file := "LICENSE" } [] (by decide)
  · exact ((newFromDir_first_of_scan { listing := none, read := fun _ => none }).2.2
      GoErr.ioError).mp rfl

lemma rNL_nil : replaceNewlines [] = [] := rfl

lemma rNL_lf (rest : List Char) : replaceNewlines ('\n' :: rest) = ' ' :: replaceNewlines rest := by
  rw [replaceNewlines.eq_def]
  simp

lemma rNL_cr_nil : replaceNewlines ['\r'] = ['\r'] := by
  rw [replaceNewlines.eq_def]
  simp

lemma rNL_crlf (rest : List Char) :
    replaceNewlines ('\r' :: '\n' :: rest) = ' ' :: replaceNewlines rest := by
  rw [replaceNewlines.eq_def]
  simp

lemma rNL_cr_cons (c2 : Char) (rest : List Char) (h : c2 ≠ '\n') :
    replaceNewlines ('\r' :: c2 :: rest) = '\r' :: replaceNewlines (c2 :: rest) := by
  rw [replaceNewlines.eq_def]
  simp [h]

lemma rNL_other (c : Char) (rest : List Char) (h1 : c ≠ '\n') (h2 : c ≠ '\r') :
    replaceNewlines (c :: rest) = c :: replaceNewlines rest := by
  rw [replaceNewlines.eq_def]
  simp [h1, h2]

lemma rNL_append_head (a b : List Char) (hb : b.head? ≠ some '\n') :
    replaceNewlines (a ++ b) = replaceNewlines a ++ replaceNewlines b := by
  induction a using replaceNewlines.induct with
  | case1 => simp [rNL_nil]
  | case2 rest2 ih =>
    rw [List.cons_append, rNL_lf, rNL_lf, ih, List.cons_append]
  | case3 =>
    cases b with
    | nil => simp [rNL_cr_nil, rNL_nil]
    | cons c2 b2 =>
      have hc2 : c2 ≠ '\n' := by
        intro he
        exact hb (by rw [he]; rfl)
      rw [List.singleton_append, rNL_cr_cons c2 b2 hc2, rNL_cr_nil, List.singleton_append]
  | case4 rest2 _ ih =>
    rw [List.cons_append, List.cons_append, rNL_crlf, rNL_crlf, ih, List.cons_append]
  | case5 c2 rest2 h2 _ ih =>
    rw [List.cons_append, List.cons_append, rNL_cr_cons c2 (rest2 ++ b) h2,
      rNL_cr_cons c2 rest2 h2, ← List.cons_append, ih, List.cons_append]
  | case6 c2 rest2 h1 h2 ih =>
    rw [List.cons_append, rNL_other c2 (rest2 ++ b) h1 h2, rNL_other c2 rest2 h1 h2, ih,
      List.cons_append]

lemma getLast?_cons_ne_nil (x : Char) (xs : List Char) (h : xs ≠ []) :
    (x :: xs).getLast? = xs.getLast? := by
  cases xs with
  | nil => exact absurd rfl h
  | cons y ys => exact List.getLast?_cons_cons

lemma rNL_append_last (a b : List Char) (ha : a.getLast? ≠ some '\r') :
    replaceNewlines (a ++ b) = replaceNewlines a ++ replaceNewlines b := by
  induction a using replaceNewlines.induct with
  | case1 => simp [rNL_nil]
  | case2 rest2 ih =>
    cases hr : rest2 with
    | nil => rw [List.cons_append, List.nil_append, rNL_lf, rNL_lf, rNL_nil, List.cons_append,
        List.nil_append]
    | cons r rs =>
      subst hr
      rw [List.cons_append, rNL_lf, rNL_lf,
        ih (by rw [← getLast?_cons_ne_nil '\n' (r :: rs) (by simp)]; exact ha),
        List.cons_append]
  | case3 => exact absurd rfl ha
  | case4 rest2 _ ih =>
    cases hr : rest2 with
    | nil => rw [List.cons_append, List.cons_append, List.nil_append, rNL_crlf, rNL_crlf,
        rNL_nil, List.cons_append, List.nil_append]
    | cons r rs =>
      subst hr
      have ha2 : (r :: rs).getLast? ≠ some '\r' := by
        rw [← getLast?_cons_ne_nil '\n' (r :: rs) (by simp)]
        rw [← getLast?_cons_ne_nil '\r' ('\n' :: r :: rs) (by simp)]
        exact ha
      rw [List.cons_append, List.cons_append, rNL_crlf, rNL_crlf, ih ha2, List.cons_append]
  | case5 c2 rest2 h2 _ ih =>
    have ha2 : (c2 :: rest2).getLast? ≠ some '\r' := by
      rw [← getLast?_cons_ne_nil '\r' (c2 :: rest2) (by simp)]
      exact ha
    rw [List.cons_append, List.cons_append, rNL_cr_cons c2 (rest2 ++ b) h2,
      rNL_cr_cons c2 rest2 h2, ← List.cons_append, ih ha2, List.cons_append]
  | case6 c2 rest2 h1 h2 ih =>
    cases hr : rest2 with
    | nil =>
      rw [List.cons_append, List.nil_append, rNL_other c2 b h1 h2, rNL_other c2 [] h1 h2,
        rNL_nil, List.cons_append, List.nil_append]
    | cons r rs =>
      subst hr
      rw [List.cons_append, rNL_other c2 ((r :: rs) ++ b) h1 h2, rNL_other c2 (r :: rs) h1 h2,
        ih (by rw [← getLast?_cons_ne_nil c2 (r :: rs) (by simp)]; exact ha), List.cons_append]

lemma rNL_concat_lf (w : List Char) : ∃ u, replaceNewlines (w ++ ['\n']) = u ++ [' '] := by
  induction w using replaceNewlines.induct with
  | case1 => exact ⟨[], rfl⟩
  | case2 rest2 ih =>
    rcases ih with ⟨u, hu⟩
    exact ⟨' ' :: u, by rw [List.cons_append, rNL_lf, hu, List.cons_append]⟩
  | case3 => exact ⟨[], rfl⟩
  | case4 rest2 _ ih =>
    rcases ih with ⟨u, hu⟩
    exact ⟨' ' :: u, by rw [List.cons_append, List.cons_append, rNL_crlf, hu, List.cons_append]⟩
  | case5 c2 rest2 h2 _ ih =>
    rcases ih with ⟨u, hu⟩
    refine ⟨'\r' :: u, ?_⟩
    rw [List.cons_append, List.cons_append, rNL_cr_cons c2 (rest2 ++ ['\n']) h2,
      ← List.cons_append, hu, List.cons_append]
  | case6 c2 rest2 h1 h2 ih =>
    rcases ih with ⟨u, hu⟩
    exact ⟨c2 :: u, by rw [List.cons_append, rNL_other c2 (rest2 ++ ['\n']) h1 h2, hu,
      List.cons_append]⟩

lemma cA_nil (flag : Bool) : collapseAux [] flag = [] := by
  rw [collapseAux.eq_def]

lemma cA_true_space (c : Char) (rest : List Char) (h : isGoSpace c = true) :
    collapseAux (c :: rest) true = collapseAux rest true := by
  rw [collapseAux.eq_def]
  simp [h]

lemma cA_true_nonspace (c : Char) (rest : List Char) (h : isGoSpace c = false) :
    collapseAux (c :: rest) true = c :: collapseAux rest false := by
  rw [collapseAux.eq_def]
  simp [h]

lemma cA_false_single (c : Char) (h : isGoSpace c = true) : collapseAux [c] false = [c] := by
  rw [collapseAux.eq_def]
  simp [h]

lemma cA_false_2space (c c2 : Char) (rest2 : List Char) (h : isGoSpace c = true)
    (h2 : isGoSpace c2 = true) :
    collapseAux (c :: c2 :: rest2) false = ' ' :: collapseAux (c2 :: rest2) true := by
  rw [collapseAux.eq_def]
  simp [h, h2]

lemma cA_false_1space (c c2 : Char) (rest2 : List Char) (h : isGoSpace c = true)
    (h2 : isGoSpace c2 = false) :
    collapseAux (c :: c2 :: rest2) false = c :: collapseAux (c2 :: rest2) false := by
  rw [collapseAux.eq_def]
  simp [h, h2]

lemma cA_false_nonspace (c : Char) (rest : List Char) (h : isGoSpace c = false) :
    collapseAux (c :: rest) false = c :: collapseAux rest false := by
  rw [collapseAux.eq_def]
  cases rest <;> simp [h]

lemma collapseAux_dup (a b : List Char) (flag : Bool) :
    collapseAux (a ++ ' ' :: ' ' :: b) flag = collapseAux (a ++ ' ' :: b) flag := by
  induction a generalizing flag with
  | nil =>
    rw [List.nil_append, List.nil_append]
    cases flag
    case true =>
      rw [cA_true_space ' ' (' ' :: b) (by decide)]
    case false =>
      rw [cA_false_2space ' ' ' ' b (by decide) (by decide), cA_true_space ' ' b (by decide)]
      cases b with
      | nil => rw [cA_false_single ' ' (by decide), cA_nil]
      | cons d b2 =>
        cases hd : isGoSpace d
        case true =>
          rw [cA_false_2space ' ' d b2 (by decide) hd]
        case false =>
          rw [cA_false_1space ' ' d b2 (by decide) hd, cA_true_nonspace d b2 hd,
            cA_false_nonspace d b2 hd]
  | cons e a2 ih =>
    rw [List.cons_append, List.cons_append]
    cases hs : isGoSpace e
    case false =>
      cases flag
      case true =>
        rw [cA_true_nonspace e _ hs, cA_true_nonspace e _ hs, ih false]
      case false =>
        rw [cA_false_nonspace e _ hs, cA_false_nonspace e _ hs, ih false]
    case true =>
      cases flag
      case true =>
        rw [cA_true_space e _ hs, cA_true_space e _ hs, ih true]
      case false =>
        cases a2 with
        | nil =>
          rw [List.nil_append, List.nil_append,
            cA_false_2space e ' ' (' ' :: b) hs (by decide),
            cA_false_2space e ' ' b hs (by decide),
            cA_true_space ' ' (' ' :: b) (by decide)]
        | cons e2 a3 =>
          cases hs2 : isGoSpace e2
          case true =>
            rw [List.cons_append, List.cons_append,
              cA_false_2space e e2 _ hs hs2, cA_false_2space e e2 _ hs hs2]
            have := ih true
            rw [List.cons_append, List.cons_append] at this
            rw [this]
          case false =>
            rw [List.cons_append, List.cons_append,
              cA_false_1space e e2 _ hs hs2, cA_false_1space e e2 _ hs hs2]
            have := ih false
            rw [List.cons_append, List.cons_append] at this
            rw [this]

lemma collapseAux_true_head (z : List Char) (c : Char)
    (h : (collapseAux z true).head? = some c) : isGoSpace c = false := by
  induction z with
  | nil => rw [cA_nil] at h; exact Option.noConfusion h
  | cons a rest ih =>
    cases hs : isGoSpace a
    case false =>
      rw [cA_true_nonspace a rest hs] at h
      rw [List.head?_cons, Option.some.injEq] at h
      rw [← h]
      exact hs
    case true =>
      rw [cA_true_space a rest hs] at h
      exact ih h

lemma collapseAux_false_head (z : List Char) (c : Char)
    (h : (collapseAux z false).head? = some c) :
    ∃ c0, z.head? = some c0 ∧ isGoSpace c = isGoSpace c0 := by
  cases z with
  | nil => rw [cA_nil] at h; exact Option.noConfusion h
  | cons a rest =>
    refine ⟨a, List.head?_cons, ?_⟩
    cases hs : isGoSpace a
    case false =>
      rw [cA_false_nonspace a rest hs, List.head?_cons, Option.some.injEq] at h
      rw [← h]
      exact hs
    case true =>
      cases rest with
      | nil =>
        rw [cA_false_single a hs, List.head?_cons, Option.some.injEq] at h
        rw [← h]
        exact hs
      | cons a2 r2 =>
        cases hs2 : isGoSpace a2
        case true =>
          rw [cA_false_2space a a2 r2 hs hs2, List.head?_cons, Option.some.injEq] at h
          rw [← h]
          decide
        case false =>
          rw [cA_false_1space a a2 r2 hs hs2, List.head?_cons, Option.some.injEq] at h
          rw [← h]
          exact hs

lemma collapseAux_chain (z : List Char) (flag : Bool) :
    (collapseAux z flag).Chain' (fun a b => ¬(isGoSpace a = true ∧ isGoSpace b = true)) := by
  induction z, flag using collapseAux.induct with
  | case1 flag => rw [cA_nil]; exact List.chain'_nil
  | case2 c rest hsp ih => rw [cA_true_space c rest hsp]; exact ih
  | case3 c rest hns ih =>
    have hc : isGoSpace c = false := Bool.eq_false_iff.mpr hns
    rw [cA_true_nonspace c rest hc]
    refine List.chain'_cons'.mpr ⟨?_, ih⟩
    intro y _ hcontra
    rw [hc] at hcontra
    exact Bool.false_ne_true hcontra.1
  | case4 c hsp => rw [cA_false_single c hsp]; exact List.chain'_singleton c
  | case5 c hsp c2 rest2 hsp2 ih =>
    rw [cA_false_2space c c2 rest2 hsp hsp2]
    refine List.chain'_cons'.mpr ⟨?_, ih⟩
    intro y hy hcontra
    have := collapseAux_true_head (c2 :: rest2) y (Option.mem_def.mp hy)
    rw [this] at hcontra
    exact Bool.false_ne_true hcontra.2
  | case6 c hsp c2 rest2 hns2 ih =>
    have hc2 : isGoSpace c2 = false := Bool.eq_false_iff.mpr hns2
    rw [cA_false_1space c c2 rest2 hsp hc2]
    refine List.chain'_cons'.mpr ⟨?_, ih⟩
    intro y hy hcontra
    rcases collapseAux_false_head (c2 :: rest2) y (Option.mem_def.mp hy)
      with ⟨c0, hc0, hyc0⟩
    rw [List.head?_cons, Option.some.injEq] at hc0
    rw [← hc0] at hyc0
    rw [hyc0, hc2] at hcontra
    exact Bool.false_ne_true hcontra.2
  | case7 c rest hns ih =>
    have hc : isGoSpace c = false := Bool.eq_false_iff.mpr hns
    rw [cA_false_nonspace c rest hc]
    refine List.chain'_cons'.mpr ⟨?_, ih⟩
    intro y _ hcontra
    rw [hc] at hcontra
    exact Bool.false_ne_true hcontra.1

lemma mem_replaceNewlines (z : List Char) (c : Char) (h : c ∈ replaceNewlines z) :
    c = ' ' ∨ c ∈ z := by
  induction z using replaceNewlines.induct with
  | case1 => rw [rNL_nil] at h; exact absurd h (List.not_mem_nil c)
  | case2 rest2 ih =>
    rw [rNL_lf] at h
    rcases List.mem_cons.mp h with rfl | h2
    · exact Or.inl rfl
    · rcases ih h2 with h3 | h3
      · exact Or.inl h3
      · exact Or.inr (List.mem_cons_of_mem _ h3)
  | case3 _ =>
    rw [rNL_cr_nil] at h
    exact Or.inr h
  | case4 rest2 _ ih =>
    rw [rNL_crlf] at h
    rcases List.mem_cons.mp h with rfl | h2
    · exact Or.inl rfl
    · rcases ih h2 with h3 | h3
      · exact Or.inl h3
      · exact Or.inr (List.mem_cons_of_mem _ (List.mem_cons_of_mem _ h3))
  | case5 c2 rest2 hne _ ih =>
    rw [rNL_cr_cons c2 rest2 hne] at h
    rcases List.mem_cons.mp h with rfl | h2
    · exact Or.inr (List.mem_cons_self _ _)
    · rcases ih h2 with h3 | h3
      · exact Or.inl h3
      · exact Or.inr (List.mem_cons_of_mem _ h3)
  | case6 c2 rest2 h1 h2 ih =>
    rw [rNL_other c2 rest2 h1 h2] at h
    rcases List.mem_cons.mp h with rfl | h3
    · exact Or.inr (List.mem_cons_self _ _)
    · rcases ih h3 with h4 | h4
      · exact Or.inl h4
      · exact Or.inr (List.mem_cons_of_mem _ h4)

lemma replaceNewlines_no_lf (z : List Char) : '\n' ∉ replaceNewlines z := by
  induction z using replaceNewlines.induct with
  | case1 => rw [rNL_nil]; exact List.not_mem_nil _
  | case2 rest2 ih =>
    rw [rNL_lf]
    intro h
    rcases List.mem_cons.mp h with h2 | h2
    · exact absurd h2 (by decide)
    · exact ih h2
  | case3 _ => rw [rNL_cr_nil]; decide
  | case4 rest2 _ ih =>
    rw [rNL_crlf]
    intro h
    rcases List.mem_cons.mp h with h2 | h2
    · exact absurd h2 (by decide)
    · exact ih h2
  | case5 c2 rest2 hne _ ih =>
    rw [rNL_cr_cons c2 rest2 hne]
    intro h
    rcases List.mem_cons.mp h with h2 | h2
    · exact absurd h2 (by decide)
    · exact ih h2
  | case6 c2 rest2 h1 h2 ih =>
    rw [rNL_other c2 rest2 h1 h2]
    intro h
    rcases List.mem_cons.mp h with h3 | h3
    · exact h1 h3.symm
    · exact ih h3

lemma mem_collapseAux (z : List Char) (flag : Bool) (c : Char)
    (h : c ∈ collapseAux z flag) : c = ' ' ∨ c ∈ z := by
  induction z, flag using collapseAux.induct with
  | case1 flag => rw [cA_nil] at h; exact absurd h (List.not_mem_nil c)
  | case2 a rest hsp ih =>
    rw [cA_true_space a rest hsp] at h
    rcases ih h with h2 | h2
    · exact Or.inl h2
    · exact Or.inr (List.mem_cons_of_mem _ h2)
  | case3 a rest hns ih =>
    rw [cA_true_nonspace a rest (Bool.eq_false_iff.mpr hns)] at h
    rcases List.mem_cons.mp h with rfl | h2
    · exact Or.inr (List.mem_cons_self _ _)
    · rcases ih h2 with h3 | h3
      · exact Or.inl h3
      · exact Or.inr (List.mem_cons_of_mem _ h3)
  | case4 a hsp =>
    rw [cA_false_single a hsp] at h
    exact Or.inr h
  | case5 a hsp a2 rest2 hsp2 ih =>
    rw [cA_false_2space a a2 rest2 hsp hsp2] at h
    rcases List.mem_cons.mp h with rfl | h2
    · exact Or.inl rfl
    · rcases ih h2 with h3 | h3
      · exact Or.inl h3
      · exact Or.inr (List.mem_cons_of_mem _ h3)
  | case6 a hsp a2 rest2 hns2 ih =>
    rw [cA_false_1space a a2 rest2 hsp (Bool.eq_false_iff.mpr hns2)] at h
    rcases List.mem_cons.mp h with rfl | h2
    · exact Or.inr (List.mem_cons_self _ _)
    · rcases ih h2 with h3 | h3
      · exact Or.inl h3
      · exact Or.inr (List.mem_cons_of_mem _ h3)
  | case7 a rest hns ih =>
    rw [cA_false_nonspace a rest (Bool.eq_false_iff.mpr hns)] at h
    rcases List.mem_cons.mp h with rfl | h2
    · exact Or.inr (List.mem_cons_self _ _)
    · rcases ih h2 with h3 | h3
      · exact Or.inl h3
      · exact Or.inr (List.mem_cons_of_mem _ h3)

lemma lowerChar_cases (c : Char) : lowerChar c ∈ lowercaseLetters ∨ lowerChar c = c := by
  unfold lowerChar
  cases hf : casePairs.find? (fun q => q.2 == c) with
  | none => exact Or.inr rfl
  | some q =>
    have hmem := List.mem_of_find?_eq_some hf
    left
    have : ∀ r ∈ casePairs, r.1 ∈ lowercaseLetters := by decide
    simpa using this q hmem

lemma lowerChar_lower_fixed : ∀ d ∈ lowercaseLetters, lowerChar d = d := by decide

lemma lowerChar_idem (c : Char) : lowerChar (lowerChar c) = lowerChar c := by
  rcases lowerChar_cases c with h | h
  · exact lowerChar_lower_fixed _ h
  · rw [h]
    exact h

lemma upperChar_cases (c : Char) : upperChar c = c ∨ (c, upperChar c) ∈ casePairs := by
  unfold upperChar
  cases hf : casePairs.find? (fun q => q.1 == c) with
  | none => exact Or.inl rfl
  | some q =>
    have hmem := List.mem_of_find?_eq_some hf
    have hq1 : q.1 = c := by
      have := List.find?_some hf
      simpa [beq_iff_eq] using this
    right
    simpa [← hq1] using hmem

lemma lowerChar_pair : ∀ q ∈ casePairs, lowerChar q.2 = lowerChar q.1 := by decide

lemma lowerChar_upperChar (c : Char) : lowerChar (upperChar c) = lowerChar c := by
  rcases upperChar_cases c with h | h
  · rw [h]
  · exact lowerChar_pair _ h

lemma lowerChar_eq_cr (c : Char) (h : lowerChar c = '\r') : c = '\r' := by
  rcases lowerChar_cases c with h2 | h2
  · rw [h] at h2
    exact absurd h2 (by decide)
  · rw [← h2, h]

lemma lowerChar_lf : lowerChar '\n' = '\n' := by decide

lemma lowerChar_cr : lowerChar '\r' = '\r' := by decide

lemma lowerChar_space : lowerChar ' ' = ' ' := by decide

/-- Claim C7: the normalization applied before rule evaluation is the pure,
total, deterministic pipeline lower-case, then line-ending replacement, then
whitespace-run collapsing: every character of the output is a case-folded
character or a replacement space, no line feed survives (each `\n` and
`\r\n` having been replaced by one space), and no two adjacent whitespace
characters remain (every run of two or more was collapsed to one space). -/
theorem normalizer_properties (l : List Char) :
    normalizeChars l = collapseSpaces (replaceNewlines (l.map lowerChar)) ∧
    (∀ c ∈ normalizeChars l, lowerChar c = c) ∧
    '\n' ∉ normalizeChars l ∧
    (normalizeChars l).Chain' (fun a b => ¬(isGoSpace a = true ∧ isGoSpace b = true)) := by
  refine ⟨rfl, ?_, ?_, collapseAux_chain _ false⟩
  · intro c hc
    rcases mem_collapseAux _ false c hc with rfl | h2
    · decide
    · rcases mem_replaceNewlines _ c h2 with rfl | h3
      · decide
      · rcases List.mem_map.mp h3 with ⟨c0, _, rfl⟩
        exact lowerChar_idem c0
  · intro hc
    rcases mem_collapseAux _ false '\n' hc with h2 | h2
    · exact absurd h2 (by decide)
    · exact replaceNewlines_no_lf _ h2

/-- One elementary variation of a text in the sense of the spec's
invariance property: upper- or lower-casing a character, converting a line
ending between LF and CRLF (the LF being a line ending of its own, i.e. not
preceded by a carriage return), inserting an extra blank line, or
duplicating a space. -/
inductive VariantStep : List Char → List Char → Prop
  | upperAt (pre post : List Char) (c : Char) :
      VariantStep (pre ++ c :: post) (pre ++ upperChar c :: post)
  | lowerAt (pre post : List Char) (c : Char) :
      VariantStep (pre ++ c :: post) (pre ++ lowerChar c :: post)
  | lfToCrlf (pre post : List Char) (h : pre.getLast? ≠ some '\r') :
      VariantStep (pre ++ '\n' :: post) (pre ++ '\r' :: '\n' :: post)
  | crlfToLf (pre post : List Char) (h : pre.getLast? ≠ some '\r') :
      VariantStep (pre ++ '\r' :: '\n' :: post) (pre ++ '\n' :: post)
  | addBlankLine (pre post : List Char) :
      VariantStep (pre ++ '\n' :: post) (pre ++ '\n' :: '\n' :: post)
  | dupSpace (pre post : List Char) :
      VariantStep (pre ++ ' ' :: post) (pre ++ ' ' :: ' ' :: post)

/-- A variant of a text: any finite chain of elementary variations. -/
def TextVariant : List Char → List Char → Prop := Relation.ReflTransGen VariantStep

lemma map_lower_getLast_ne_cr (pre : List Char) (hpre : pre.getLast? ≠ some '\r') :
    (pre.map lowerChar).getLast? ≠ some '\r' := by
  rw [List.getLast?_map]
  intro hcon
  rcases Option.map_eq_some'.mp hcon with ⟨c0, hc0, hl⟩
  exact hpre (by rw [hc0, lowerChar_eq_cr c0 hl])

lemma crlf_lf_normalize (pre post : List Char) (hpre : pre.getLast? ≠ some '\r') :
    replaceNewlines ((pre ++ '\n' :: post).map lowerChar) =
      replaceNewlines ((pre ++ '\r' :: '\n' :: post).map lowerChar) := by
  rw [List.map_append, List.map_append, List.map_cons, List.map_cons, List.map_cons,
    lowerChar_lf, lowerChar_cr]
  rw [rNL_append_last _ _ (map_lower_getLast_ne_cr pre hpre),
    rNL_append_head _ _ (by rw [List.head?_cons]; decide), rNL_lf, rNL_crlf]

lemma normalize_step (x y : List Char) (h : VariantStep x y) :
    normalizeChars x = normalizeChars y := by
  cases h with
  | upperAt pre post c =>
    unfold normalizeChars
    rw [List.map_append, List.map_append, List.map_cons, List.map_cons, lowerChar_upperChar]
  | lowerAt pre post c =>
    unfold normalizeChars
    rw [List.map_append, List.map_append, List.map_cons, List.map_cons, lowerChar_idem]
  | lfToCrlf pre post hpre =>
    unfold normalizeChars
    rw [crlf_lf_normalize pre post hpre]
  | crlfToLf pre post hpre =>
    unfold normalizeChars
    rw [crlf_lf_normalize pre post hpre]
  | addBlankLine pre post =>
    unfold normalizeChars collapseSpaces
    rw [List.map_append, List.map_append, List.map_cons, List.map_cons, List.map_cons,
      lowerChar_lf]
    rw [List.append_cons (pre.map lowerChar) '\n' (post.map lowerChar),
      List.append_cons (pre.map lowerChar) '\n' ('\n' :: post.map lowerChar)]
    rw [rNL_append_last (pre.map lowerChar ++ ['\n']) (post.map lowerChar)
        (by rw [List.getLast?_concat]; decide),
      rNL_append_last (pre.map lowerChar ++ ['\n']) ('\n' :: post.map lowerChar)
        (by rw [List.getLast?_concat]; decide),
      rNL_lf]
    rcases rNL_concat_lf (pre.map lowerChar) with ⟨u, hu⟩
    rw [hu, List.append_assoc u [' '] (replaceNewlines (post.map lowerChar)),
      List.append_assoc u [' '] (' ' :: replaceNewlines (post.map lowerChar)),
      List.singleton_append, List.singleton_append]
    exact (collapseAux_dup u (replaceNewlines (post.map lowerChar)) false).symm
  | dupSpace pre post =>
    unfold normalizeChars collapseSpaces
    rw [List.map_append, List.map_append, List.map_cons, List.map_cons, List.map_cons,
      lowerChar_space]
    rw [rNL_append_head (pre.map lowerChar) (' ' :: post.map lowerChar)
        (by rw [List.head?_cons]; decide),
      rNL_append_head (pre.map lowerChar) (' ' :: ' ' :: post.map lowerChar)
        (by rw [List.head?_cons]; decide)]
    rw [rNL_other ' ' (post.map lowerChar) (by decide) (by decide),
      rNL_other ' ' (' ' :: post.map lowerChar) (by decide) (by decide),
      rNL_other ' ' (post.map lowerChar) (by decide) (by decide)]
    exact (collapseAux_dup (replaceNewlines (pre.map lowerChar))
      (replaceNewlines (post.map lowerChar)) false).symm

lemma textVariant_normalize (x y : List Char) (h : TextVariant x y) :
    normalizeChars x = normalizeChars y := by
  induction h with
  | refl => rfl
  | tail _ hbc ih => exact ih.trans (normalize_step _ _ hbc)

/-- Claim C6: classification is invariant under case and
whitespace/line-ending variation — if a text classifies to an identifier,
every variant of it (upper/lower-casing characters, LF/CRLF conversion,
extra blank lines, duplicated spaces) classifies to the same identifier. -/
theorem classify_variant_invariant (x y : List Char) (id : String)
    (hv : TextVariant x y) (hx : classifyChars x = some id) :
    classifyChars y = some id := by
  unfold classifyChars at hx ⊢
  rw [← textVariant_normalize x y hv]
  exact hx

def mitTail : List Char := mitPhrase.data.tail

def mitVariant2 : List Char :=
  ['P', 'e', 'r', 'm', 'i', 's', 's', 'i', 'o', 'n'] ++ ' ' :: ' ' :: mitPhrase.data.drop 11

/-- Witness for claim C6: the MIT phrase with its first letter upper-cased
and a duplicated space still classifies as MIT. -/
theorem classify_variant_invariant_witness :
    TextVariant ('p' :: mitTail) mitVariant2 ∧
    classifyChars ('p' :: mitTail) = some LicenseMIT ∧
    classifyChars mitVariant2 = some LicenseMIT := by
  have hstep1 : VariantStep ('p' :: mitTail) ('P' :: mitTail) :=
    VariantStep.upperAt [] mitTail 'p'
  have hstep2 : VariantStep ('P' :: mitTail) mitVariant2 :=
    VariantStep.dupSpace ['P', 'e', 'r', 'm', 'i', 's', 's', 'i', 'o', 'n']
      (mitPhrase.data.drop 11)
  have hv : TextVariant ('p' :: mitTail) mitVariant2 :=
    Relation.ReflTransGen.tail (Relation.ReflTransGen.single hstep1) hstep2
  have hx : classifyChars ('p' :: mitTail) = some LicenseMIT := by decide
  exact ⟨hv, hx, classify_variant_invariant _ _ _ hv hx⟩

/-- Witness for claim C7: the normalizer's guarantees evaluated on a
concrete mixed-case, CRLF, blank-line, multi-space text. -/
theorem normalizer_properties_witness :
    '\n' ∉ normalizeChars ("Mixed CASE\r\n\n  text".data) ∧
    (normalizeChars ("Mixed CASE\r\n\n  text".data)).Chain'
      (fun a b => ¬(isGoSpace a = true ∧ isGoSpace b = true)) :=
  ⟨(normalizer_properties ("Mixed CASE\r\n\n  text".data)).2.2.1,
   (normalizer_properties ("Mixed CASE\r\n\n  text".data)).2.2.2⟩
